import Mathlib

/-!
Verification of `scripts/ai_code_review.py`: the diff position mapper
(`get_diff_positions`) and the review orchestrator (`run_review`).

The Python code is shallowly embedded: pure logic becomes Lean functions,
the external effects (GitHub event payload, `gh` subprocess calls, file
reads, the OpenAI call, the final file write) become explicit inputs
collected in a `World` structure, and Python exceptions become `Except`
values.  `logging` calls become an explicit list of `LogEntry` values
returned alongside each result.  Python's `dict` (insertion ordered,
overwriting in place) is modelled as an association list with unique keys.
-/

set_option autoImplicit false

namespace AiCodeReview

/-- `ALLOWED_EXTENSIONS` from the script; the Python set literal is modelled
as a list, used only for membership tests. -/
def ALLOWED_EXTENSIONS : List String :=
  [".py", ".js", ".ts", ".go", ".java", ".rb", ".php"]

/-- `REVIEW_OUTPUT_FILE` from the script. -/
def REVIEW_OUTPUT_FILE : String := "review_output.json"

/-- Python `s.startswith(pre)`: `pre` is a prefix of `s`, compared by code
points.  (`String.startsWith` has the same semantics but is defined by
well-founded recursion, which blocks kernel evaluation, so the character
list form is used throughout.) -/
def starts_with (s pre : String) : Bool :=
  pre.data.isPrefixOf s.data

/-- Python `s.split(sep)` for a one-character separator `sep`, on character
lists: splitting never yields an empty list, and adjacent separators yield
empty segments, exactly as in Python. -/
def split_on_char (c : Char) : List Char → List (List Char)
  | [] => [[]]
  | x :: xs =>
    match split_on_char c xs with
    | [] => if x = c then [[], []] else [[x]]
    | h :: t => if x = c then [] :: h :: t else (x :: h) :: t

/-- Decimal digit accumulation; `none` as soon as a non-digit appears. -/
def digits_to_nat : List Char → Nat → Option Nat
  | [], acc => some acc
  | d :: ds, acc =>
    if d.isDigit then digits_to_nat ds (acc * 10 + (d.toNat - '0'.toNat)) else none

/-- Python `int(s)` on the strings these claims concern: optional
surrounding whitespace, an optional sign, then decimal digits; anything
else raises `ValueError`, modelled as `none`.  (Python additionally accepts
digit-group underscores and non-ASCII digits; those never occur here.) -/
def py_int (s : List Char) : Option Int :=
  let t := ((s.dropWhile Char.isWhitespace).reverse.dropWhile
    Char.isWhitespace).reverse
  match t with
  | [] => none
  | '-' :: ds =>
    match ds with
    | [] => none
    | _ => (digits_to_nat ds 0).map (fun n => -(n : Int))
  | '+' :: ds =>
    match ds with
    | [] => none
    | _ => (digits_to_nat ds 0).map (fun n => (n : Int))
  | ds => (digits_to_nat ds 0).map (fun n => (n : Int))

/-- The last path component, as `pathlib.PurePosixPath(f).name`: empty and
`"."` components are dropped and the last remaining component is the name. -/
def path_name (f : String) : String :=
  String.mk (((split_on_char '/' f.data).filter
    (fun comp => comp != ([] : List Char) && comp != ['.'])).getLastD [])

/-- `pathlib.PurePath(f).suffix`: the substring of the final component from
its last dot onwards, unless that dot is the component's first or last
character, in which case the suffix is empty. -/
def path_suffix (f : String) : String :=
  let nm := (path_name f).toList
  if nm.contains '.' then
    let tail := nm.reverse.takeWhile (fun c => c != '.')
    let i := nm.length - tail.length - 1
    if 0 < i ∧ i < nm.length - 1 then String.mk ('.' :: tail.reverse) else ""
  else ""

/-- `filter_source_files`: keep only the files whose `path_suffix` is an
allowed extension, preserving order (the Python loop appends in order). -/
def filter_source_files (files : List String) : List String :=
  files.filter (fun f => ALLOWED_EXTENSIONS.contains (path_suffix f))

/-- The Python exceptions that can escape the embedded code. -/
inductive RunErr where
  /-- `IndexError` / `ValueError` raised while parsing a hunk header in
  `get_diff_positions` (lines 122-123 of the script). -/
  | hunkError
  /-- `TypeError` raised while iterating or subscripting the decoded model
  response. -/
  | typeError
  /-- `KeyError` raised by `item["line"]` / `item["comment"]` when a decoded
  response item lacks that key. -/
  | keyError (key : String)
  /-- `json.JSONDecodeError` from `json.loads(result.stdout)` in
  `get_diff_positions` (an uncaught site). -/
  | jsonDecodeError
  /-- `RuntimeError` raised by `load_changed_files`. -/
  | runtimeError (msg : String)
  /-- The exception raised by the final `json.dump` / `open`, re-raised by
  `run_review` after logging. -/
  | writeError (msg : String)
deriving DecidableEq

/-- One `logging` call, with its level and (approximate) message. -/
inductive LogEntry where
  | info (msg : String)
  | warning (msg : String)
  | error (msg : String)
deriving DecidableEq

/-! ## The Python dict used for the position map

`positions` maps file line numbers (Python ints, unbounded) to diff
positions.  A Python dict keeps insertion order and overwrites in place. -/

/-- Python `positions[k] = v`: overwrite in place when `k` is present,
append otherwise. -/
def dinsert (m : List (Int × Nat)) (k : Int) (v : Nat) : List (Int × Nat) :=
  if m.any (fun p => p.1 == k) then
    m.map (fun p => if p.1 == k then (k, v) else p)
  else
    m ++ [(k, v)]

/-- Python `m[k]` / `k in m` combined: the value at key `k`, if present. -/
def dlookup (m : List (Int × Nat)) (k : Int) : Option Nat :=
  (m.find? (fun p => p.1 == k)).map (fun p => p.2)

/-! ## The diff position mapper (`get_diff_positions`, lines 112-135) -/

/-- Parsing of a hunk header line in `get_diff_positions`:
`hunk = line.split(" ")[2]` then
`start = int(hunk.split(",")[0].replace("+", ""))`.
A missing token (`IndexError`) or an unparseable integer (`ValueError`) is
the uncaught exception `RunErr.hunkError`.  `replace("+", "")` removes
every `+` character; Python `int` is modelled by `py_int`. -/
def parse_hunk_start (line : String) : Except RunErr Int :=
  match (split_on_char ' ' line.data)[2]? with
  | none => .error .hunkError
  | some hunk =>
    match py_int (((split_on_char ',' hunk).headD []).filter
        (fun c => c != '+')) with
    | none => .error .hunkError
    | some start => .ok start

/-- The per-line loop of `get_diff_positions`.  Every line first increments
`diff_pos`; a hunk header resets `file_line` to `start - 1`; an addition
line (starts with `+` but not `+++`) advances `file_line` and records
`positions[file_line] = diff_pos`; a removal line (starts with `-` but not
`---`) is skipped; every other line advances `file_line`. -/
def map_positions_go :
    List String → Int → Nat → List (Int × Nat) → Except RunErr (List (Int × Nat))
  | [], _, _, positions => .ok positions
  | line :: rest, file_line, diff_pos, positions =>
    if starts_with line "@@" then
      match parse_hunk_start line with
      | .error e => .error e
      | .ok start => map_positions_go rest (start - 1) (diff_pos + 1) positions
    else if starts_with line "+" && !(starts_with line "+++") then
      map_positions_go rest (file_line + 1) (diff_pos + 1)
        (dinsert positions (file_line + 1) (diff_pos + 1))
    else if starts_with line "-" && !(starts_with line "---") then
      map_positions_go rest file_line (diff_pos + 1) positions
    else
      map_positions_go rest (file_line + 1) (diff_pos + 1) positions

/-- The pure core of `get_diff_positions`: the loop started with
`file_line = 0`, `diff_pos = 0` and an empty map. -/
def map_positions (diff : List String) : Except RunErr (List (Int × Nat)) :=
  map_positions_go diff 0 0 []

/-- The entries produced by `n` consecutive addition lines starting from
file line `fl + 1` and diff position `dp + 1`. -/
def consecutive_entries (fl : Int) (dp : Nat) : Nat → List (Int × Nat)
  | 0 => []
  | n + 1 => (fl + 1, dp + 1) :: consecutive_entries (fl + 1) (dp + 1) n

/-- Python `str.splitlines` restricted to `\n` separators: split on
newlines, dropping the empty fragment after a trailing newline. -/
def splitlines (s : String) : List String :=
  let parts := (split_on_char '\n' s.data).map String.mk
  match parts.reverse with
  | [] => []
  | last :: rest => if last = "" then rest.reverse else parts

/-- The outcome of the effectful prelude of `get_diff_positions`
(lines 74-110: event file, `gh pr diff` subprocess, JSON decode of its
stdout, locating this file's entry). -/
inductive PatchFetch where
  /-- `GITHUB_EVENT_PATH` does not exist: logged, empty map. -/
  | noEventPath
  /-- `gh` exited non-zero: logged, empty map. -/
  | ghError (stderr : String)
  /-- `json.loads(result.stdout)` raises: uncaught `JSONDecodeError`. -/
  | badStdout
  /-- The file is absent from the decoded list, or its patch is missing or
  empty: logged warning, empty map. -/
  | noPatch
  /-- The file's patch text was found. -/
  | found (patch : String)
deriving DecidableEq

/-- `get_diff_positions`: dispatch on the fetch outcome, then run the pure
mapping loop over `patch.splitlines()`. -/
def get_diff_positions (file_path : String) (fetch : PatchFetch) :
    List LogEntry × Except RunErr (List (Int × Nat)) :=
  match fetch with
  | .noEventPath => ([.error "GITHUB_EVENT_PATH does not exist."], .ok [])
  | .ghError stderr => ([.error s!"Error calling gh api: {stderr}"], .ok [])
  | .badStdout => ([], .error .jsonDecodeError)
  | .noPatch => ([.warning s!"No patch found for {file_path}"], .ok [])
  | .found patch => ([], map_positions (splitlines patch))

/-! ## The review generator response (`review_file`, lines 138-189) -/

/-- A decoded JSON value, as produced by `json.loads`.  JSON numbers are
restricted to integers (the only numbers these claims concern); object
fields are already de-duplicated, as `json.loads` keeps the last binding. -/
inductive PyJson where
  | null
  | bool (b : Bool)
  | num (n : Int)
  | str (s : String)
  | arr (elems : List PyJson)
  | obj (fields : List (String × PyJson))

/-- Python `for item in data`: lists yield their elements, dicts their keys,
strings their characters; anything else raises `TypeError`. -/
def py_iter : PyJson → Except RunErr (List PyJson)
  | .arr xs => .ok xs
  | .obj fs => .ok (fs.map (fun p => PyJson.str p.1))
  | .str s => .ok (s.toList.map (fun c => PyJson.str (String.singleton c)))
  | _ => .error .typeError

/-- Python `item[key]` for a string key: dict lookup (`KeyError` when the
key is absent); any non-dict raises `TypeError`. -/
def py_subscript (item : PyJson) (key : String) : Except RunErr PyJson :=
  match item with
  | .obj fs =>
    match fs.find? (fun p => p.1 == key) with
    | some p => .ok p.2
    | none => .error (.keyError key)
  | _ => .error (.typeError)

/-- The comprehension `[(item["line"], item["comment"]) for item in data]`,
evaluated left to right, stopping at the first exception. -/
def extract_comments : List PyJson → Except RunErr (List (PyJson × PyJson))
  | [] => .ok []
  | item :: rest => do
    let l ← py_subscript item "line"
    let c ← py_subscript item "comment"
    let tl ← extract_comments rest
    pure ((l, c) :: tl)

/-- `review_file`: a failed file read is logged and yields `[]`; a model
response that fails JSON decoding, or whose decoded value raises
`TypeError` during extraction, is logged and yields `[]` (the script
catches exactly `json.JSONDecodeError` and `TypeError`); a `KeyError`
from a decoded item missing `"line"` or `"comment"` is not caught and
propagates.  `content` is the outcome of `pathlib.Path(path).read_text`
and `ai` the JSON-decode outcome of the model's response text. -/
def review_file (path : String) (content : Except String String)
    (ai : Except String PyJson) :
    List LogEntry × Except RunErr (List (PyJson × PyJson)) :=
  match content with
  | .error e => ([.error s!"Could not read {path}: {e}"], .ok [])
  | .ok _ =>
    match ai with
    | .error e =>
      ([.error s!"Failed to parse JSON from model response: {e}"], .ok [])
    | .ok data =>
      match py_iter data >>= extract_comments with
      | .ok comments => ([], .ok comments)
      | .error .typeError =>
        ([.error "Failed to parse JSON from model response: TypeError"], .ok [])
      | .error e => ([], .error e)

/-! ## The orchestrator (`run_review`, lines 192-226) -/

/-- A positioned inline comment, one element of the payload's `comments`
array: `{"path": f, "position": diff_map[line_num], "body": body}`. -/
structure PositionedComment where
  path : String
  position : Nat
  body : PyJson

/-- The review payload `{"body": ..., "event": ..., "comments": ...}`. -/
structure ReviewPayload where
  body : String
  event : String
  comments : List PositionedComment

/-- Python `line_num in diff_map` / `diff_map[line_num]` where the keys are
ints: an int matches its key, a bool matches `1`/`0` (Python `True == 1`),
any other value matches no key. -/
def json_lookup (m : List (Int × Nat)) (j : PyJson) : Option Nat :=
  match j with
  | .num n => dlookup m n
  | .bool b => dlookup m (if b then 1 else 0)
  | _ => none

/-- The inner loop of `run_review`: keep each raw comment whose line number
is a key of the diff map, with that key's diff position; drop the rest
(no logging call exists in this loop). -/
def position_comments (f : String) (diff_map : List (Int × Nat)) :
    List (PyJson × PyJson) → List PositionedComment
  | [] => []
  | (line_num, body) :: rest =>
    match json_lookup diff_map line_num with
    | some pos => ⟨f, pos, body⟩ :: position_comments f diff_map rest
    | none => position_comments f diff_map rest

/-- The external world of one run: the outcome of `load_changed_files`,
per-path file-read outcomes, per-path JSON-decode outcomes of the model
response, per-path patch-fetch outcomes, and the outcome of the final
write. -/
structure World where
  changed_files : Except String (List String)
  content : String → Except String String
  aiResp : String → Except String PyJson
  fetch : String → PatchFetch
  write : Except String Unit

/-- The per-file loop of `run_review`: log progress, review the file, skip
the rest when it produced no comments (`if not file_comments: continue`),
otherwise build the diff map and append the positioned comments.  Any
uncaught exception aborts the loop, keeping the logs emitted so far. -/
def review_loop (w : World) :
    List String → List LogEntry × Except RunErr (List PositionedComment)
  | [] => ([], .ok [])
  | f :: rest =>
    let logs0 := [LogEntry.info s!"--- Reviewing {f} ---"]
    let rc := review_file f (w.content f) (w.aiResp f)
    match rc.2 with
    | .error e => (logs0 ++ rc.1, .error e)
    | .ok file_comments =>
      if file_comments.isEmpty then
        let tl := review_loop w rest
        (logs0 ++ rc.1 ++ tl.1, tl.2)
      else
        let dm := get_diff_positions f (w.fetch f)
        match dm.2 with
        | .error e => (logs0 ++ rc.1 ++ dm.1, .error e)
        | .ok diff_map =>
          let mine := position_comments f diff_map file_comments
          let tl := review_loop w rest
          (logs0 ++ rc.1 ++ dm.1 ++ tl.1,
           match tl.2 with
           | .error e => .error e
           | .ok cs => .ok (mine ++ cs))

/-- `run_review`: load the changed files (a `RuntimeError` propagates),
filter to source files, run the per-file loop, then write the payload with
the fixed body `"AI Code Review"` and event `"COMMENT"`; a write failure is
logged and re-raised. -/
def run_review (w : World) : List LogEntry × Except RunErr ReviewPayload :=
  match w.changed_files with
  | .error msg => ([], .error (.runtimeError msg))
  | .ok changed_files =>
    let source_files := filter_source_files changed_files
    let lr := review_loop w source_files
    match lr.2 with
    | .error e => (lr.1, .error e)
    | .ok all_comments =>
      let review_json : ReviewPayload :=
        ⟨"AI Code Review", "COMMENT", all_comments⟩
      match w.write with
      | .error e =>
        (lr.1 ++ [.error s!"Failed to write {REVIEW_OUTPUT_FILE}: {e}"],
         .error (.writeError e))
      | .ok _ =>
        (lr.1 ++ [.info s!"Generated {REVIEW_OUTPUT_FILE} with inline comments."],
         .ok review_json)

/-- The total number of raw comments the generator produced for the given
files (a failed `review_file` call produced none before raising). -/
def raw_comment_count (w : World) : List String → Nat
  | [] => 0
  | f :: rest =>
    (match (review_file f (w.content f) (w.aiResp f)).2 with
     | .ok cs => cs.length
     | .error _ => 0) + raw_comment_count w rest

/-! ## Concrete worlds used as witnesses and counterexamples -/

/-- One changed source file whose patch has a malformed hunk header
(`@@ -1 @@`: the `+c,d` range token is missing, `int` then fails on
`@@`). -/
def world_bad_hunk : World where
  changed_files := .ok ["a.py"]
  content := fun _ => .ok "code"
  aiResp := fun _ => .ok (.arr [.obj [("line", .num 1), ("comment", .str "x")]])
  fetch := fun _ => .found "@@ -1 @@\n+x"
  write := .ok ()

/-- One changed source file; the generator comments on line 99 but the
patch only touches file line 10, so the comment is dropped. -/
def world_drop : World where
  changed_files := .ok ["a.py"]
  content := fun _ => .ok "code"
  aiResp := fun _ => .ok (.arr [.obj [("line", .num 99), ("comment", .str "y")]])
  fetch := fun _ => .found "@@ -1,1 +10,1 @@\n+hello"
  write := .ok ()

/-- Same as `world_drop` except the patch touches file line 99, so the
same comment is kept: only the patch differs, the logs must not. -/
def world_keep : World :=
  { world_drop with fetch := fun _ => .found "@@ -1,1 +99,1 @@\n+hello" }

/-- Two changed files, one with a non-reviewable extension; the reviewed
file gets one comment on line 10, which the patch maps to position 2. -/
def world_mixed : World where
  changed_files := .ok ["a.py", "b.txt"]
  content := fun _ => .ok "code"
  aiResp := fun _ => .ok (.arr [.obj [("line", .num 10), ("comment", .str "x")]])
  fetch := fun _ => .found "@@ -1,1 +10,1 @@\n+hello"
  write := .ok ()

/-- The generator answers with valid JSON whose single item lacks the
`"line"` key: `item["line"]` raises `KeyError`. -/
def world_keyerror : World where
  changed_files := .ok ["a.py"]
  content := fun _ => .ok "code"
  aiResp := fun _ => .ok (.arr [.obj [("comment", .str "x")]])
  fetch := fun _ => .found ""
  write := .ok ()

/-- The single changed file cannot be read. -/
def world_unreadable : World where
  changed_files := .ok ["a.py"]
  content := fun _ => .error "io"
  aiResp := fun _ => .ok .null
  fetch := fun _ => .noPatch
  write := .ok ()

/-- No changed files at all; the run still writes the payload. -/
def world_empty : World where
  changed_files := .ok []
  content := fun _ => .error "unused"
  aiResp := fun _ => .error "unused"
  fetch := fun _ => .noPatch
  write := .ok ()

/-- `load_changed_files` raised before any file was processed. -/
def world_no_pr : World where
  changed_files := .error "Missing PR number or repository info."
  content := fun _ => .ok ""
  aiResp := fun _ => .ok .null
  fetch := fun _ => .noPatch
  write := .ok ()

/-- The final payload write fails. -/
def world_write_fail : World where
  changed_files := .ok []
  content := fun _ => .ok ""
  aiResp := fun _ => .ok .null
  fetch := fun _ => .noPatch
  write := .error "disk full"

/-! ## Lemmas about the dict model -/

theorem dinsert_of_not_mem (m : List (Int × Nat)) (k : Int) (v : Nat)
    (h : m.any (fun p => p.1 == k) = false) :
    dinsert m k v = m ++ [(k, v)] := by
  simp [dinsert, h]

theorem mem_dinsert (m : List (Int × Nat)) (k : Int) (v : Nat)
    (p : Int × Nat) (hp : p ∈ dinsert m k v) : p ∈ m ∨ p = (k, v) := by
  unfold dinsert at hp
  split at hp
  · rcases List.mem_map.mp hp with ⟨q, hq, hqe⟩
    by_cases hk : q.1 == k
    · simp only [hk, if_true] at hqe
      exact Or.inr hqe.symm
    · simp only [hk, if_false] at hqe
      exact Or.inl (hqe ▸ hq)
  · rcases List.mem_append.mp hp with h | h
    · exact Or.inl h
    · exact Or.inr (List.mem_singleton.mp h)

/-! ## Step lemmas for the mapper loop -/

theorem go_cons_hunk_ok (line : String) (rest : List String) (fl start : Int)
    (dp : Nat) (acc : List (Int × Nat))
    (h0 : starts_with line "@@" = true)
    (hp : parse_hunk_start line = .ok start) :
    map_positions_go (line :: rest) fl dp acc =
      map_positions_go rest (start - 1) (dp + 1) acc := by
  simp [map_positions_go, h0, hp]

theorem go_cons_hunk_err (line : String) (rest : List String) (fl : Int)
    (dp : Nat) (acc : List (Int × Nat)) (e : RunErr)
    (h0 : starts_with line "@@" = true)
    (hp : parse_hunk_start line = .error e) :
    map_positions_go (line :: rest) fl dp acc = .error e := by
  simp [map_positions_go, h0, hp]

theorem go_cons_add (line : String) (rest : List String) (fl : Int)
    (dp : Nat) (acc : List (Int × Nat))
    (h0 : starts_with line "@@" = false)
    (h1 : starts_with line "+" = true)
    (h2 : starts_with line "+++" = false) :
    map_positions_go (line :: rest) fl dp acc =
      map_positions_go rest (fl + 1) (dp + 1) (dinsert acc (fl + 1) (dp + 1)) := by
  simp [map_positions_go, h0, h1, h2]

theorem go_cons_remove (line : String) (rest : List String) (fl : Int)
    (dp : Nat) (acc : List (Int × Nat))
    (h0 : starts_with line "@@" = false)
    (hadd : (starts_with line "+" && !(starts_with line "+++")) = false)
    (h1 : starts_with line "-" = true)
    (h2 : starts_with line "---" = false) :
    map_positions_go (line :: rest) fl dp acc =
      map_positions_go rest fl (dp + 1) acc := by
  simp [map_positions_go, h0, hadd, h1, h2]

theorem go_cons_other (line : String) (rest : List String) (fl : Int)
    (dp : Nat) (acc : List (Int × Nat))
    (h0 : starts_with line "@@" = false)
    (hadd : (starts_with line "+" && !(starts_with line "+++")) = false)
    (hrem : (starts_with line "-" && !(starts_with line "---")) = false) :
    map_positions_go (line :: rest) fl dp acc =
      map_positions_go rest (fl + 1) (dp + 1) acc := by
  simp [map_positions_go, h0, hadd, hrem]

/-- Closed form of `consecutive_entries` as a range map. -/
theorem consecutive_entries_eq_range (fl : Int) (dp : Nat) :
    ∀ n, consecutive_entries fl dp n =
      (List.range n).map (fun (i : Nat) => (fl + 1 + (i : Int), dp + 1 + i))
  | 0 => by simp [consecutive_entries]
  | n + 1 => by
    rw [consecutive_entries, consecutive_entries_eq_range (fl + 1) (dp + 1) n,
      List.range_succ_eq_map, List.map_cons, List.map_map]
    congr 1
    · simp
    · apply List.map_congr_left
      intro i _
      simp only [Function.comp_apply, Prod.mk.injEq]
      refine ⟨by push_cast; ring, by omega⟩

/-- Running the loop over addition-only lines (each taking the addition
branch) appends one entry per line, with consecutive keys and positions,
provided every key already in the accumulator is at most `fl`. -/
theorem map_positions_go_adds :
    ∀ (adds : List String) (fl : Int) (dp : Nat) (acc : List (Int × Nat)),
    (∀ l ∈ adds, starts_with l "@@" = false ∧ starts_with l "+" = true ∧
      starts_with l "+++" = false) →
    (∀ p ∈ acc, p.1 ≤ fl) →
    map_positions_go adds fl dp acc =
      .ok (acc ++ consecutive_entries fl dp adds.length)
  | [], fl, dp, acc, _, _ => by simp [map_positions_go, consecutive_entries]
  | line :: adds, fl, dp, acc, hadds, hacc => by
    obtain ⟨h0, h1, h2⟩ := hadds line (List.mem_cons_self line adds)
    rw [go_cons_add line adds fl dp acc h0 h1 h2]
    have hnot : acc.any (fun p => p.1 == fl + 1) = false := by
      rw [List.any_eq_false]
      intro p hp
      have := hacc p hp
      simp only [beq_iff_eq]
      omega
    rw [dinsert_of_not_mem acc (fl + 1) (dp + 1) hnot]
    rw [map_positions_go_adds adds (fl + 1) (dp + 1) (acc ++ [(fl + 1, dp + 1)])
      (fun l hl => hadds l (List.mem_cons_of_mem line hl))
      (by
        intro p hp
        rcases List.mem_append.mp hp with h | h
        · have := hacc p h; omega
        · simp only [List.mem_singleton] at h
          simp [h])]
    rw [List.length_cons, consecutive_entries, List.append_assoc,
      List.singleton_append]

/-- If no line of the patch takes the hunk-header branch or the addition
branch, the loop never touches the accumulated map. -/
theorem map_positions_go_no_entries :
    ∀ (lines : List String) (fl : Int) (dp : Nat) (acc : List (Int × Nat)),
    (∀ l ∈ lines, starts_with l "@@" = false ∧
      (starts_with l "+" && !(starts_with l "+++")) = false) →
    map_positions_go lines fl dp acc = .ok acc
  | [], _, _, _, _ => rfl
  | line :: rest, fl, dp, acc, h => by
    obtain ⟨h0, hadd⟩ := h line (List.mem_cons_self line rest)
    have hrest := fun l hl => h l (List.mem_cons_of_mem line hl)
    by_cases hrem : (starts_with line "-" && !(starts_with line "---")) = true
    · obtain ⟨hr1, hr2⟩ := Bool.and_eq_true_iff.mp hrem
      rw [go_cons_remove line rest fl dp acc h0 hadd hr1
        (Bool.not_eq_true' .. ▸ hr2)]
      exact map_positions_go_no_entries rest fl (dp + 1) acc hrest
    · rw [go_cons_other line rest fl dp acc h0 hadd (Bool.eq_false_iff.mpr hrem)]
      exact map_positions_go_no_entries rest (fl + 1) (dp + 1) acc hrest

/-- Claim C2: for every patch that is a single hunk header whose parsed
new-file start is `c`, followed by `n` addition lines (lines taking the
addition branch: they begin with `+` but not `+++`, hence not with `@@`)
and nothing else, the mapper returns exactly `n` entries with keys
`c, c+1, …, c+n-1` and diff positions `2, 3, …, n+1` (position 1 is
the hunk header). -/
theorem C2_single_hunk_additions_map (header : String) (c : Int)
    (adds : List String)
    (hh : starts_with header "@@" = true)
    (hc : parse_hunk_start header = .ok c)
    (hadds : ∀ l ∈ adds, starts_with l "@@" = false ∧ starts_with l "+" = true ∧
      starts_with l "+++" = false) :
    map_positions (header :: adds) =
      .ok ((List.range adds.length).map
        (fun (i : Nat) => (c + (i : Int), i + 2))) := by
  unfold map_positions
  rw [go_cons_hunk_ok header adds 0 c 0 [] hh hc]
  rw [map_positions_go_adds adds (c - 1) 1 [] hadds (by simp)]
  rw [consecutive_entries_eq_range]
  simp only [List.nil_append]
  apply congrArg Except.ok
  apply List.map_congr_left
  intro i _
  simp only [Prod.mk.injEq]
  refine ⟨by ring, by omega⟩

/-- Witness for C2 at the concrete patch `@@ -1,2 +5,3 @@` with two
addition lines: keys 5, 6 with positions 2, 3. -/
theorem C2_single_hunk_additions_map_witness :
    map_positions ["@@ -1,2 +5,3 @@", "+a", "+b"] = .ok [(5, 2), (6, 3)] := by
  have h := C2_single_hunk_additions_map "@@ -1,2 +5,3 @@" 5 ["+a", "+b"]
    (by decide) rfl (by decide)
  rw [h]
  rfl

/-- Claim C3 counterexample: the one-line patch `+x` contains no
hunk-header line, yet the mapper returns the nonempty map `{1: 1}`
(the file-line counter starts at 0 and the addition line advances it
and records an entry even without any hunk header). -/
theorem C3_counterexample :
    (["+x"].all (fun l => !(starts_with l "@@"))) = true ∧
    map_positions ["+x"] = .ok [(1, 1)] ∧
    map_positions ["+x"] ≠ .ok [] := by
  refine ⟨by decide, by rfl, ?_⟩
  intro h
  rw [show map_positions ["+x"] = .ok [(1, 1)] from rfl] at h
  simp at h

/-- Claim C3 (amended): for every patch text containing no hunk-header
lines and no addition lines, the PositionMap returned by the mapper is
empty. -/
theorem C3_no_hunk_no_addition_empty (lines : List String)
    (h : ∀ l ∈ lines, starts_with l "@@" = false ∧
      (starts_with l "+" && !(starts_with l "+++")) = false) :
    map_positions lines = .ok [] :=
  map_positions_go_no_entries lines 0 0 [] h

/-- Witness for the amended C3: a removal line and a context line yield an
empty map. -/
theorem C3_no_hunk_no_addition_empty_witness :
    map_positions ["-old", " ctx"] = .ok [] :=
  C3_no_hunk_no_addition_empty ["-old", " ctx"] (by decide)

theorem dinsert_bounds (m : List (Int × Nat)) (k : Int) (dp : Nat)
    (hb : ∀ p ∈ m, 1 ≤ p.2 ∧ p.2 ≤ dp) :
    ∀ p ∈ dinsert m k (dp + 1), 1 ≤ p.2 ∧ p.2 ≤ dp + 1 := by
  intro p hp
  rcases mem_dinsert m k (dp + 1) p hp with h | h
  · have := hb p h; omega
  · rw [h]; omega

theorem dinsert_pairwise (m : List (Int × Nat)) (k : Int) (dp : Nat)
    (hb : ∀ p ∈ m, p.2 ≤ dp)
    (hpw : m.Pairwise (fun p q => p.1 ≠ q.1 ∧ p.2 ≠ q.2)) :
    (dinsert m k (dp + 1)).Pairwise (fun p q => p.1 ≠ q.1 ∧ p.2 ≠ q.2) := by
  unfold dinsert
  split
  · rw [List.pairwise_map]
    refine hpw.imp_of_mem ?_
    intro a b ha hb' hab
    by_cases hak : a.1 == k <;> by_cases hbk : b.1 == k
    · exact absurd (by
        have h1 : a.1 = k := by simpa using hak
        have h2 : b.1 = k := by simpa using hbk
        rw [h1, h2]) hab.1
    · simp only [hak, hbk, if_true, if_false]
      have h2 : ¬ b.1 = k := by simpa using hbk
      exact ⟨fun h => h2 h.symm, fun h => absurd (h ▸ hb b hb') (by omega)⟩
    · simp only [hak, hbk, if_true, if_false]
      have h1 : ¬ a.1 = k := by simpa using hak
      exact ⟨h1, fun h => absurd (h ▸ hb a ha) (by omega)⟩
    · simp only [hak, hbk, if_false]
      exact hab
  · rename_i hno
    rw [List.pairwise_append]
    refine ⟨hpw, by simp, ?_⟩
    intro a ha b hb'
    simp only [List.mem_singleton] at hb'
    rw [hb']
    have hno' : ∀ p ∈ m, ¬ p.1 = k := by
      intro p hp
      have := (List.any_eq_false.mp (Bool.eq_false_iff.mpr hno)) p hp
      simpa using this
    exact ⟨hno' a ha, fun h => absurd (h ▸ hb a ha) (by omega)⟩

/-- The central invariant of the mapping loop: when it succeeds, every map
entry is either inherited from the accumulator or was produced by an
addition line of the remaining input, its stored diff position being
exactly that line's 1-based position offset; keys and stored positions are
pairwise distinct. -/
theorem map_positions_go_invariant :
    ∀ (lines : List String) (fl : Int) (dp : Nat) (acc m : List (Int × Nat)),
    map_positions_go lines fl dp acc = .ok m →
    (∀ p ∈ acc, 1 ≤ p.2 ∧ p.2 ≤ dp) →
    acc.Pairwise (fun p q => p.1 ≠ q.1 ∧ p.2 ≠ q.2) →
    (∀ p ∈ m, 1 ≤ p.2 ∧ p.2 ≤ dp + lines.length ∧
      (p ∈ acc ∨ (dp < p.2 ∧ ∃ l, lines[p.2 - dp - 1]? = some l ∧
        starts_with l "+" = true ∧ starts_with l "+++" = false))) ∧
    m.Pairwise (fun p q => p.1 ≠ q.1 ∧ p.2 ≠ q.2)
  | [], fl, dp, acc, m, hgo, hb, hpw => by
    have hm : acc = m := by simpa [map_positions_go] using hgo
    subst hm
    exact ⟨fun p hp => ⟨(hb p hp).1, by have := (hb p hp).2; simp; omega,
      Or.inl hp⟩, hpw⟩
  | line :: rest, fl, dp, acc, m, hgo, hb, hpw => by
    cases h0 : starts_with line "@@" with
    | true =>
      cases hps : parse_hunk_start line with
      | error e =>
        rw [go_cons_hunk_err line rest fl dp acc e h0 hps] at hgo
        exact absurd hgo (by simp)
      | ok start =>
        rw [go_cons_hunk_ok line rest fl start dp acc h0 hps] at hgo
        obtain ⟨hmem, hpw'⟩ := map_positions_go_invariant rest (start - 1)
          (dp + 1) acc m hgo (fun p hp => by have := hb p hp; omega) hpw
        refine ⟨?_, hpw'⟩
        intro p hp
        obtain ⟨h1, h2, h3⟩ := hmem p hp
        refine ⟨h1, by simp only [List.length_cons]; omega, ?_⟩
        rcases h3 with h | ⟨hlt, l, hl, hadd⟩
        · exact Or.inl h
        · refine Or.inr ⟨by omega, l, ?_, hadd⟩
          have hidx : p.2 - dp - 1 = (p.2 - (dp + 1) - 1) + 1 := by omega
          rw [hidx, List.getElem?_cons_succ]
          exact hl
    | false =>
      cases haddc : (starts_with line "+" && !(starts_with line "+++")) with
      | true =>
        obtain ⟨ha1, ha2⟩ := Bool.and_eq_true_iff.mp haddc
        have ha2' : starts_with line "+++" = false := by simpa using ha2
        rw [go_cons_add line rest fl dp acc h0 ha1 ha2'] at hgo
        obtain ⟨hmem, hpw'⟩ := map_positions_go_invariant rest (fl + 1)
          (dp + 1) (dinsert acc (fl + 1) (dp + 1)) m hgo
          (dinsert_bounds acc (fl + 1) dp hb)
          (dinsert_pairwise acc (fl + 1) dp (fun p hp => (hb p hp).2) hpw)
        refine ⟨?_, hpw'⟩
        intro p hp
        obtain ⟨h1, h2, h3⟩ := hmem p hp
        refine ⟨h1, by simp only [List.length_cons]; omega, ?_⟩
        rcases h3 with h | ⟨hlt, l, hl, hadd⟩
        · rcases mem_dinsert acc (fl + 1) (dp + 1) p h with h' | h'
          · exact Or.inl h'
          · refine Or.inr ⟨by rw [h']; exact Nat.lt_succ_self dp, line, ?_,
              ha1, ha2'⟩
            have hidx : p.2 - dp - 1 = 0 := by
              rw [h']
              show dp + 1 - dp - 1 = 0
              omega
            rw [hidx]
            exact List.getElem?_cons_zero
        · refine Or.inr ⟨by omega, l, ?_, hadd⟩
          have hidx : p.2 - dp - 1 = (p.2 - (dp + 1) - 1) + 1 := by omega
          rw [hidx, List.getElem?_cons_succ]
          exact hl
      | false =>
        have step : ∀ fl', map_positions_go (line :: rest) fl' dp acc =
            map_positions_go rest
              (if (starts_with line "-" && !(starts_with line "---")) = true
                then fl' else fl' + 1) (dp + 1) acc := by
          intro fl'
          cases hrem : (starts_with line "-" && !(starts_with line "---")) with
          | true =>
            obtain ⟨hr1, hr2⟩ := Bool.and_eq_true_iff.mp hrem
            rw [if_pos rfl]
            exact go_cons_remove line rest fl' dp acc h0 haddc hr1
              (by simpa using hr2)
          | false =>
            rw [if_neg (by simp)]
            exact go_cons_other line rest fl' dp acc h0 haddc hrem
        rw [step fl] at hgo
        obtain ⟨hmem, hpw'⟩ := map_positions_go_invariant rest _
          (dp + 1) acc m hgo (fun p hp => by have := hb p hp; omega) hpw
        refine ⟨?_, hpw'⟩
        intro p hp
        obtain ⟨h1, h2, h3⟩ := hmem p hp
        refine ⟨h1, by simp only [List.length_cons]; omega, ?_⟩
        rcases h3 with h | ⟨hlt, l, hl, hadd⟩
        · exact Or.inl h
        · refine Or.inr ⟨by omega, l, ?_, hadd⟩
          have hidx : p.2 - dp - 1 = (p.2 - (dp + 1) - 1) + 1 := by omega
          rw [hidx, List.getElem?_cons_succ]
          exact hl

/-- Claim C6: for every patch on which the mapper succeeds, every diff
position stored as a value of the PositionMap is at least 1 and is the
1-based index in the patch of the addition line that produced the entry;
the stored positions are pairwise distinct.  Because each entry's value is
exactly the index at which its addition line appears, listing the entries
in the order their addition lines appear in the patch text lists the
values in strictly increasing order. -/
theorem C6_positions_increasing (lines : List String) (m : List (Int × Nat))
    (h : map_positions lines = .ok m) :
    (∀ p ∈ m, 1 ≤ p.2 ∧ ∃ l, lines[p.2 - 1]? = some l ∧
      starts_with l "+" = true ∧ starts_with l "+++" = false) ∧
    m.Pairwise (fun p q => p.2 ≠ q.2) := by
  obtain ⟨hmem, hpw⟩ :=
    map_positions_go_invariant lines 0 0 [] m h (by simp) (by simp)
  refine ⟨?_, hpw.imp (fun h => h.2)⟩
  intro p hp
  obtain ⟨h1, _, h3⟩ := hmem p hp
  rcases h3 with h | ⟨_, l, hl, ha⟩
  · exact absurd h (by simp)
  · exact ⟨h1, l, by simpa using hl, ha⟩

/-- Witness for C6 on the patch `@@ -1,1 +3,2 @@ / +a / ctx / +b`, whose
map is `{3: 2, 5: 4}`: the stored positions are pairwise distinct. -/
theorem C6_positions_increasing_witness :
    ([((3 : Int), (2 : Nat)), (5, 4)].Pairwise (fun p q => p.2 ≠ q.2)) :=
  (C6_positions_increasing ["@@ -1,1 +3,2 @@", "+a", " c", "+b"]
    [(3, 2), (5, 4)] rfl).2

/-- Claim C7: a removal line (taking the removal branch: it begins with a
single `-`, not `---`) passes both the file-line counter and the
accumulated map through unchanged — it produces no key and does not
advance the counter — while the counter advances exactly on addition
lines (which also insert their entry) and on other (context) lines. -/
theorem C7_removal_no_key_no_advance (line : String) (rest : List String)
    (fl : Int) (dp : Nat) (acc : List (Int × Nat))
    (h0 : starts_with line "@@" = false) :
    (starts_with line "+" = false → starts_with line "-" = true →
      starts_with line "---" = false →
      map_positions_go (line :: rest) fl dp acc =
        map_positions_go rest fl (dp + 1) acc) ∧
    (starts_with line "+" = true → starts_with line "+++" = false →
      map_positions_go (line :: rest) fl dp acc =
        map_positions_go rest (fl + 1) (dp + 1)
          (dinsert acc (fl + 1) (dp + 1))) ∧
    ((starts_with line "+" = false ∨ starts_with line "+++" = true) →
      (starts_with line "-" = false ∨ starts_with line "---" = true) →
      map_positions_go (line :: rest) fl dp acc =
        map_positions_go rest (fl + 1) (dp + 1) acc) := by
  refine ⟨?_, ?_, ?_⟩
  · intro hp hr1 hr2
    exact go_cons_remove line rest fl dp acc h0 (by simp [hp]) hr1 hr2
  · intro ha1 ha2
    exact go_cons_add line rest fl dp acc h0 ha1 ha2
  · intro ha hr
    refine go_cons_other line rest fl dp acc h0 ?_ ?_
    · rcases ha with ha | ha <;> simp [ha]
    · rcases hr with hr | hr <;> simp [hr]

/-- Witness for C7 on a removal line, an addition line and a context
line. -/
theorem C7_removal_no_key_no_advance_witness :
    (map_positions_go ["-gone"] 7 3 [(1, 1)] =
      map_positions_go [] 7 4 [(1, 1)]) ∧
    (map_positions_go ["+new"] 7 3 [(1, 1)] =
      map_positions_go [] 8 4 (dinsert [(1, 1)] 8 4)) ∧
    (map_positions_go [" ctx"] 7 3 [(1, 1)] =
      map_positions_go [] 8 4 [(1, 1)]) :=
  ⟨(C7_removal_no_key_no_advance "-gone" [] 7 3 [(1, 1)] (by decide)).1
      (by decide) (by decide) (by decide),
   (C7_removal_no_key_no_advance "+new" [] 7 3 [(1, 1)] (by decide)).2.1
      (by decide) (by decide),
   (C7_removal_no_key_no_advance " ctx" [] 7 3 [(1, 1)] (by decide)).2.2
      (Or.inl (by decide)) (Or.inl (by decide))⟩

/-! ## Lemmas about the orchestrator -/

theorem position_comments_append (f : String) (dm : List (Int × Nat)) :
    ∀ xs ys, position_comments f dm (xs ++ ys) =
      position_comments f dm xs ++ position_comments f dm ys
  | [], ys => rfl
  | (ln, body) :: xs, ys => by
    have ih := position_comments_append f dm xs ys
    simp only [List.cons_append, position_comments]
    cases json_lookup dm ln <;> simp [ih]

theorem position_comments_length_le (f : String) (dm : List (Int × Nat)) :
    ∀ cs, (position_comments f dm cs).length ≤ cs.length
  | [] => Nat.le_refl 0
  | (ln, body) :: cs => by
    simp only [position_comments]
    cases hj : json_lookup dm ln with
    | none =>
      have := position_comments_length_le f dm cs
      simp only [List.length_cons]
      omega
    | some pos =>
      have := position_comments_length_le f dm cs
      simp only [List.length_cons]
      omega

theorem position_comments_path (f : String) (dm : List (Int × Nat)) :
    ∀ cs c, c ∈ position_comments f dm cs → c.path = f
  | [], c => fun h => absurd h (List.not_mem_nil c)
  | (ln, body) :: cs, c => by
    simp only [position_comments]
    cases hj : json_lookup dm ln with
    | none => exact position_comments_path f dm cs c
    | some pos =>
      intro hc
      rcases List.mem_cons.mp hc with h | h
      · rw [h]
      · exact position_comments_path f dm cs c h

theorem review_loop_cons_err (w : World) (f : String) (rest : List String)
    (logsA : List LogEntry) (e : RunErr)
    (h : review_file f (w.content f) (w.aiResp f) = (logsA, .error e)) :
    review_loop w (f :: rest) =
      (LogEntry.info s!"--- Reviewing {f} ---" :: logsA, .error e) := by
  simp [review_loop, h]

theorem review_loop_cons_empty (w : World) (f : String) (rest : List String)
    (logsA : List LogEntry)
    (h : review_file f (w.content f) (w.aiResp f) = (logsA, .ok [])) :
    review_loop w (f :: rest) =
      (LogEntry.info s!"--- Reviewing {f} ---" :: logsA ++
        (review_loop w rest).1, (review_loop w rest).2) := by
  simp [review_loop, h]

theorem review_loop_cons_full (w : World) (f : String) (rest : List String)
    (logsA logsD : List LogEntry) (cs : List (PyJson × PyJson))
    (dm : List (Int × Nat))
    (hrf : review_file f (w.content f) (w.aiResp f) = (logsA, .ok cs))
    (hne : cs ≠ [])
    (hdm : get_diff_positions f (w.fetch f) = (logsD, .ok dm)) :
    review_loop w (f :: rest) =
      (LogEntry.info s!"--- Reviewing {f} ---" :: logsA ++ logsD ++
        (review_loop w rest).1,
       match (review_loop w rest).2 with
       | .error e => .error e
       | .ok cs2 => .ok (position_comments f dm cs ++ cs2)) := by
  have hne' : cs.isEmpty = false := by
    cases cs
    · exact absurd rfl hne
    · rfl
  simp [review_loop, hrf, hne', hdm]

theorem review_loop_cons_dm_err (w : World) (f : String) (rest : List String)
    (logsA logsD : List LogEntry) (cs : List (PyJson × PyJson)) (e : RunErr)
    (hrf : review_file f (w.content f) (w.aiResp f) = (logsA, .ok cs))
    (hne : cs ≠ [])
    (hdm : get_diff_positions f (w.fetch f) = (logsD, .error e)) :
    review_loop w (f :: rest) =
      (LogEntry.info s!"--- Reviewing {f} ---" :: logsA ++ logsD, .error e) := by
  have hne' : cs.isEmpty = false := by
    cases cs
    · exact absurd rfl hne
    · rfl
  simp [review_loop, hrf, hne', hdm]

theorem run_review_load_err (w : World) (msg : String)
    (h : w.changed_files = .error msg) :
    run_review w = ([], .error (.runtimeError msg)) := by
  simp [run_review, h]

theorem run_review_loop_err (w : World) (changed : List String)
    (logs : List LogEntry) (e : RunErr)
    (h1 : w.changed_files = .ok changed)
    (h2 : review_loop w (filter_source_files changed) = (logs, .error e)) :
    run_review w = (logs, .error e) := by
  simp [run_review, h1, h2]

theorem run_review_write_ok (w : World) (changed : List String)
    (logs : List LogEntry) (cs : List PositionedComment)
    (h1 : w.changed_files = .ok changed)
    (h2 : review_loop w (filter_source_files changed) = (logs, .ok cs))
    (h3 : w.write = .ok ()) :
    run_review w =
      (logs ++ [.info s!"Generated {REVIEW_OUTPUT_FILE} with inline comments."],
       .ok ⟨"AI Code Review", "COMMENT", cs⟩) := by
  simp [run_review, h1, h2, h3]

theorem run_review_write_err (w : World) (changed : List String)
    (logs : List LogEntry) (cs : List PositionedComment) (e : String)
    (h1 : w.changed_files = .ok changed)
    (h2 : review_loop w (filter_source_files changed) = (logs, .ok cs))
    (h3 : w.write = .error e) :
    run_review w =
      (logs ++ [.error s!"Failed to write {REVIEW_OUTPUT_FILE}: {e}"],
       .error (.writeError e)) := by
  simp [run_review, h1, h2, h3]

/-- The positioned comments that survive are never more numerous than the
raw comments the generator produced. -/
theorem review_loop_length_le (w : World) :
    ∀ (fs : List String) (cs : List PositionedComment),
    (review_loop w fs).2 = .ok cs → cs.length ≤ raw_comment_count w fs
  | [], cs, h => by
    have hcs : cs = [] := by simpa [review_loop] using h.symm
    simp [hcs, raw_comment_count]
  | f :: rest, cs, h => by
    rcases hrf : review_file f (w.content f) (w.aiResp f) with ⟨logsA, rc⟩
    cases rc with
    | error e =>
      rw [review_loop_cons_err w f rest logsA e hrf] at h
      simp at h
    | ok fcs =>
      by_cases hne : fcs = []
      · subst hne
        rw [review_loop_cons_empty w f rest logsA hrf] at h
        have ih := review_loop_length_le w rest cs h
        simp only [raw_comment_count, hrf]
        omega
      · rcases hdm : get_diff_positions f (w.fetch f) with ⟨logsD, dmr⟩
        cases dmr with
        | error e =>
          rw [review_loop_cons_dm_err w f rest logsA logsD fcs e hrf hne hdm] at h
          simp at h
        | ok dm =>
          rw [review_loop_cons_full w f rest logsA logsD fcs dm hrf hne hdm] at h
          cases hrec : (review_loop w rest).2 with
          | error e => rw [hrec] at h; simp at h
          | ok cs2 =>
            rw [hrec] at h
            simp only [Except.ok.injEq] at h
            have h1 := position_comments_length_le f dm fcs
            have ih := review_loop_length_le w rest cs2 hrec
            simp only [raw_comment_count, hrf]
            rw [← h]
            simp only [List.length_append]
            omega

/-- Every surviving comment's path is one of the processed files. -/
theorem review_loop_paths (w : World) :
    ∀ (fs : List String) (cs : List PositionedComment),
    (review_loop w fs).2 = .ok cs → ∀ c ∈ cs, c.path ∈ fs
  | [], cs, h => by
    have hcs : cs = [] := by simpa [review_loop] using h.symm
    simp [hcs]
  | f :: rest, cs, h => by
    rcases hrf : review_file f (w.content f) (w.aiResp f) with ⟨logsA, rc⟩
    cases rc with
    | error e =>
      rw [review_loop_cons_err w f rest logsA e hrf] at h
      simp at h
    | ok fcs =>
      by_cases hne : fcs = []
      · subst hne
        rw [review_loop_cons_empty w f rest logsA hrf] at h
        intro c hc
        exact List.mem_cons_of_mem f (review_loop_paths w rest cs h c hc)
      · rcases hdm : get_diff_positions f (w.fetch f) with ⟨logsD, dmr⟩
        cases dmr with
        | error e =>
          rw [review_loop_cons_dm_err w f rest logsA logsD fcs e hrf hne hdm] at h
          simp at h
        | ok dm =>
          rw [review_loop_cons_full w f rest logsA logsD fcs dm hrf hne hdm] at h
          cases hrec : (review_loop w rest).2 with
          | error e => rw [hrec] at h; simp at h
          | ok cs2 =>
            rw [hrec] at h
            simp only [Except.ok.injEq] at h
            intro c hc
            rw [← h] at hc
            rcases List.mem_append.mp hc with hm | hm
            · rw [← position_comments_path f dm fcs c hm]
              exact List.mem_cons_self _ _
            · exact List.mem_cons_of_mem f (review_loop_paths w rest cs2 hrec c hm)

/-! ## The claims about the orchestrator -/

/-- Claim C1 counterexample: with one reviewable changed file whose patch
has the malformed hunk header `@@ -1 @@` (missing the `+c,d` range token)
and a nonempty generator response, the run is aborted by the uncaught
parse error — there is no payload and no per-file recovery, refuting the
claim that the orchestrator catches this and proceeds with an empty map. -/
theorem C1_counterexample :
    run_review world_bad_hunk =
      ([.info "--- Reviewing a.py ---"], .error .hunkError) := rfl

/-- Claim C1 (amended): a patch line beginning with the hunk marker whose
range token cannot be parsed makes the mapper raise (error result), and
the orchestrator does not catch it: the error propagates out of
`run_review`, aborting the run instead of proceeding with an empty
PositionMap. -/
theorem C1_malformed_hunk_aborts_run :
    (∀ (line : String) (rest : List String) (e : RunErr),
      starts_with line "@@" = true → parse_hunk_start line = .error e →
      map_positions (line :: rest) = .error e) ∧
    (∀ (w : World) (changed : List String) (f : String) (rest : List String)
      (logsA logsD : List LogEntry) (cs : List (PyJson × PyJson)) (e : RunErr),
      w.changed_files = .ok changed →
      filter_source_files changed = f :: rest →
      review_file f (w.content f) (w.aiResp f) = (logsA, .ok cs) →
      cs ≠ [] →
      get_diff_positions f (w.fetch f) = (logsD, .error e) →
      (run_review w).2 = .error e) := by
  constructor
  · intro line rest e h0 hp
    exact go_cons_hunk_err line rest 0 0 [] e h0 hp
  · intro w changed f rest logsA logsD cs e h1 h2 hrf hne hdm
    have hloop := review_loop_cons_dm_err w f rest logsA logsD cs e hrf hne hdm
    have : run_review w = (_, .error e) :=
      run_review_loop_err w changed _ e h1 (by rw [h2]; exact hloop)
    rw [this]

/-- Witness for the amended C1: the malformed header `@@ -1 @@` errors at
the mapper level and aborts `run_review` on `world_bad_hunk`. -/
theorem C1_malformed_hunk_aborts_run_witness :
    map_positions ["@@ -1 @@", "+x"] = .error .hunkError ∧
    (run_review world_bad_hunk).2 = .error .hunkError :=
  ⟨C1_malformed_hunk_aborts_run.1 "@@ -1 @@" ["+x"] .hunkError (by decide) rfl,
   C1_malformed_hunk_aborts_run.2 world_bad_hunk ["a.py"] "a.py" [] [] []
     [(.num 1, .str "x")] .hunkError rfl rfl rfl (by simp) rfl⟩

/-- Claim C4: a raw comment whose line number is a key of its file's
PositionMap contributes exactly one positioned comment carrying that key's
diff position; a raw comment whose line number is absent contributes none;
consequently the payload's comment list is at most as long as the total
number of raw comments produced across all files. -/
theorem C4_lookup_determines_contribution :
    (∀ (f : String) (dm : List (Int × Nat)) (pre post : List (PyJson × PyJson))
      (ln body : PyJson) (pos : Nat),
      json_lookup dm ln = some pos →
      position_comments f dm (pre ++ (ln, body) :: post) =
        position_comments f dm pre ++
          ⟨f, pos, body⟩ :: position_comments f dm post) ∧
    (∀ (f : String) (dm : List (Int × Nat)) (pre post : List (PyJson × PyJson))
      (ln body : PyJson),
      json_lookup dm ln = none →
      position_comments f dm (pre ++ (ln, body) :: post) =
        position_comments f dm pre ++ position_comments f dm post) ∧
    (∀ (w : World) (changed : List String) (logs : List LogEntry)
      (payload : ReviewPayload),
      w.changed_files = .ok changed →
      run_review w = (logs, .ok payload) →
      payload.comments.length ≤
        raw_comment_count w (filter_source_files changed)) := by
  refine ⟨?_, ?_, ?_⟩
  · intro f dm pre post ln body pos hl
    rw [position_comments_append f dm pre ((ln, body) :: post)]
    simp [position_comments, hl]
  · intro f dm pre post ln body hl
    rw [position_comments_append f dm pre ((ln, body) :: post)]
    simp [position_comments, hl]
  · intro w changed logs payload h1 h2
    rcases hloop : review_loop w (filter_source_files changed) with ⟨logs', r⟩
    cases r with
    | error e =>
      rw [run_review_loop_err w changed logs' e h1 hloop] at h2
      simp at h2
    | ok cs =>
      cases hw : w.write with
      | error e =>
        rw [run_review_write_err w changed logs' cs e h1 hloop hw] at h2
        simp at h2
      | ok u =>
        cases u
        rw [run_review_write_ok w changed logs' cs h1 hloop hw] at h2
        have hpay : payload = ⟨"AI Code Review", "COMMENT", cs⟩ := by
          have := congrArg Prod.snd h2
          simpa using this.symm
        rw [hpay]
        exact review_loop_length_le w (filter_source_files changed) cs
          (by rw [hloop])

/-- Witness for C4: a matched comment yields exactly one positioned
comment with the mapped position, an unmatched one yields none, and on
`world_mixed` the payload's one comment is bounded by the one raw
comment. -/
theorem C4_lookup_determines_contribution_witness :
    position_comments "a.py" [(10, 2)] [(.num 10, .str "x")] =
      [⟨"a.py", 2, .str "x"⟩] ∧
    position_comments "a.py" [(10, 2)] [(.num 99, .str "y")] = [] ∧
    (ReviewPayload.mk "AI Code Review" "COMMENT"
      [⟨"a.py", 2, .str "x"⟩]).comments.length ≤
      raw_comment_count world_mixed (filter_source_files ["a.py", "b.txt"]) :=
  ⟨C4_lookup_determines_contribution.1 "a.py" [(10, 2)] [] []
      (.num 10) (.str "x") 2 rfl,
   C4_lookup_determines_contribution.2.1 "a.py" [(10, 2)] [] []
      (.num 99) (.str "y") rfl,
   C4_lookup_determines_contribution.2.2 world_mixed ["a.py", "b.txt"]
      [.info "--- Reviewing a.py ---",
       .info "Generated review_output.json with inline comments."]
      ⟨"AI Code Review", "COMMENT", [⟨"a.py", 2, .str "x"⟩]⟩ rfl rfl⟩

/-- Claim C5 counterexample: on `world_drop` the generator's comment at
line 99 is not a key of the map `{10: 2}` and is dropped from the payload,
but the complete log trace of the run consists of the two progress
messages only — no log entry records the drop (the source's comment loop
has no logging call at all), refuting the claim's logging half. -/
theorem C5_counterexample :
    run_review world_drop =
      ([.info "--- Reviewing a.py ---",
        .info "Generated review_output.json with inline comments."],
       .ok ⟨"AI Code Review", "COMMENT", []⟩) := rfl

/-- Claim C5 (amended): a raw comment whose line number has no entry in
its file's PositionMap is dropped from the payload, and no log entry
records the drop: the log trace of the per-file loop does not depend on
the fetched patches at all (as long as each fetch yields a patch whose
mapping succeeds), hence dropping more or fewer comments never changes
the logs. -/
theorem C5_drop_is_unlogged :
    (∀ (f : String) (dm : List (Int × Nat)) (pre post : List (PyJson × PyJson))
      (ln body : PyJson),
      json_lookup dm ln = none →
      position_comments f dm (pre ++ (ln, body) :: post) =
        position_comments f dm (pre ++ post)) ∧
    (∀ (w w' : World) (fs : List String),
      w'.content = w.content → w'.aiResp = w.aiResp →
      (∀ f ∈ fs, ∃ p p' dm dm', w.fetch f = .found p ∧ w'.fetch f = .found p' ∧
        map_positions (splitlines p) = .ok dm ∧
        map_positions (splitlines p') = .ok dm') →
      (review_loop w' fs).1 = (review_loop w fs).1) := by
  constructor
  · intro f dm pre post ln body hl
    rw [position_comments_append f dm pre ((ln, body) :: post),
      position_comments_append f dm pre post]
    simp [position_comments, hl]
  · intro w w' fs hc ha
    induction fs with
    | nil => intro _; rfl
    | cons f rest ih =>
      intro hfetch
      obtain ⟨p, p', dm, dm', hfp, hfp', hmp, hmp'⟩ :=
        hfetch f (List.mem_cons_self f rest)
      have hrest := fun g hg => hfetch g (List.mem_cons_of_mem f hg)
      have hrf : review_file f (w'.content f) (w'.aiResp f) =
          review_file f (w.content f) (w.aiResp f) := by rw [hc, ha]
      rcases hcall : review_file f (w.content f) (w.aiResp f) with ⟨logsA, rc⟩
      cases rc with
      | error e =>
        rw [review_loop_cons_err w f rest logsA e hcall,
          review_loop_cons_err w' f rest logsA e (hrf.trans hcall)]
      | ok fcs =>
        by_cases hne : fcs = []
        · subst hne
          rw [review_loop_cons_empty w f rest logsA hcall,
            review_loop_cons_empty w' f rest logsA (hrf.trans hcall)]
          simp [ih hrest]
        · have hdm : get_diff_positions f (w.fetch f) = ([], .ok dm) := by
            rw [hfp]; simp [get_diff_positions, hmp]
          have hdm' : get_diff_positions f (w'.fetch f) = ([], .ok dm') := by
            rw [hfp']; simp [get_diff_positions, hmp']
          rw [review_loop_cons_full w f rest logsA [] fcs dm hcall hne hdm,
            review_loop_cons_full w' f rest logsA [] fcs dm'
              (hrf.trans hcall) hne hdm']
          simp [ih hrest]

/-- Witness for the amended C5: on `world_drop` the comment is dropped,
on `world_keep` (identical but for the patch) it is kept, and the log
traces of the two per-file loops coincide. -/
theorem C5_drop_is_unlogged_witness :
    position_comments "a.py" [(10, 2)] [(.num 99, .str "y")] =
      position_comments "a.py" [(10, 2)] [] ∧
    (review_loop world_keep ["a.py"]).1 = (review_loop world_drop ["a.py"]).1 :=
  ⟨C5_drop_is_unlogged.1 "a.py" [(10, 2)] [] [] (.num 99) (.str "y") rfl,
   C5_drop_is_unlogged.2 world_drop world_keep ["a.py"] rfl rfl
     (by
       intro f hf
       rw [List.mem_singleton.mp hf]
       exact ⟨"@@ -1,1 +10,1 @@\n+hello", "@@ -1,1 +99,1 @@\n+hello",
         [(10, 2)], [(99, 2)], rfl, rfl, rfl, rfl⟩)⟩

/-- Claim C8 counterexample: the generator returns valid JSON whose single
item lacks the `"line"` key — a response that does not parse as the
expected `[{"line": int, "comment": str}]` shape, hence a file-local
failure — yet the resulting `KeyError` is not in the caught
`(json.JSONDecodeError, TypeError)` tuple: it propagates and aborts the
whole run instead of being swallowed with a log entry. -/
theorem C8_counterexample :
    run_review world_keyerror =
      ([.info "--- Reviewing a.py ---"], .error (.keyError "line")) := rfl

/-- Claim C8 (amended): the file-local failures the code catches —
unreadable file content, generator responses that fail JSON decoding or
raise `TypeError`, failed per-file patch retrieval — are swallowed with a
log entry and the loop continues with the next file; but a generator
response that decodes to an item missing the `"line"` key raises an
uncaught `KeyError` that aborts the run; a missing changeset context
aborts the run before any file, and a failure of the final payload write
is logged and re-raised. -/
theorem C8_failure_propagation :
    (∀ (f e : String) (ai : Except String PyJson),
      review_file f (.error e) ai =
        ([.error s!"Could not read {f}: {e}"], .ok [])) ∧
    (∀ (f c e : String),
      review_file f (.ok c) (.error e) =
        ([.error s!"Failed to parse JSON from model response: {e}"], .ok [])) ∧
    (∀ (f stderr : String),
      get_diff_positions f (.ghError stderr) =
        ([.error s!"Error calling gh api: {stderr}"], .ok [])) ∧
    (∀ (w : World) (f : String) (rest : List String) (logsA : List LogEntry),
      review_file f (w.content f) (w.aiResp f) = (logsA, .ok []) →
      (review_loop w (f :: rest)).2 = (review_loop w rest).2) ∧
    (∀ (f c : String) (fields : List (String × PyJson)),
      fields.find? (fun p => p.1 == "line") = none →
      (review_file f (.ok c) (.ok (.arr [.obj fields]))).2 =
        .error (.keyError "line")) ∧
    (∀ (w : World) (f : String) (rest : List String) (logsA : List LogEntry)
      (e : RunErr),
      review_file f (w.content f) (w.aiResp f) = (logsA, .error e) →
      (review_loop w (f :: rest)).2 = .error e) ∧
    (∀ (w : World) (msg : String),
      w.changed_files = .error msg →
      run_review w = ([], .error (.runtimeError msg))) ∧
    (∀ (w : World) (changed : List String) (logs : List LogEntry)
      (cs : List PositionedComment) (e : String),
      w.changed_files = .ok changed →
      review_loop w (filter_source_files changed) = (logs, .ok cs) →
      w.write = .error e →
      (run_review w).2 = .error (.writeError e) ∧
      LogEntry.error s!"Failed to write {REVIEW_OUTPUT_FILE}: {e}" ∈
        (run_review w).1) := by
  refine ⟨fun f e ai => rfl, fun f c e => rfl, fun f stderr => rfl,
    ?_, ?_, ?_, ?_, ?_⟩
  · intro w f rest logsA h
    rw [review_loop_cons_empty w f rest logsA h]
  · intro f c fields hfind
    simp [review_file, py_iter, extract_comments, py_subscript, hfind,
      Bind.bind, Except.bind]
  · intro w f rest logsA e h
    rw [review_loop_cons_err w f rest logsA e h]
  · intro w msg h
    exact run_review_load_err w msg h
  · intro w changed logs cs e h1 h2 h3
    rw [run_review_write_err w changed logs cs e h1 h2 h3]
    exact ⟨rfl, by simp⟩

/-- Witness for the amended C8 at concrete inputs: each swallowed failure
yields its log entry and an empty result, the loop continues, and the
`KeyError`, missing-context and write failures abort. -/
theorem C8_failure_propagation_witness :
    review_file "a.py" (.error "io") (.ok .null) =
      ([.error "Could not read a.py: io"], .ok []) ∧
    review_file "a.py" (.ok "c") (.error "bad json") =
      ([.error "Failed to parse JSON from model response: bad json"],
       .ok []) ∧
    get_diff_positions "a.py" (.ghError "boom") =
      ([.error "Error calling gh api: boom"], .ok []) ∧
    (review_loop world_unreadable ["a.py"]).2 =
      (review_loop world_unreadable []).2 ∧
    (review_file "a.py" (.ok "c")
      (.ok (.arr [.obj [("comment", .str "x")]]))).2 =
        .error (.keyError "line") ∧
    (review_loop world_keyerror ["a.py"]).2 = .error (.keyError "line") ∧
    run_review world_no_pr =
      ([], .error (.runtimeError "Missing PR number or repository info.")) ∧
    (run_review world_write_fail).2 = .error (.writeError "disk full") ∧
    LogEntry.error "Failed to write review_output.json: disk full" ∈
      (run_review world_write_fail).1 :=
  ⟨C8_failure_propagation.1 "a.py" "io" (.ok .null),
   C8_failure_propagation.2.1 "a.py" "c" "bad json",
   C8_failure_propagation.2.2.1 "a.py" "boom",
   C8_failure_propagation.2.2.2.1 world_unreadable "a.py" [] _ rfl,
   C8_failure_propagation.2.2.2.2.1 "a.py" "c" [("comment", .str "x")] rfl,
   C8_failure_propagation.2.2.2.2.2.1 world_keyerror "a.py" [] []
     (.keyError "line") rfl,
   C8_failure_propagation.2.2.2.2.2.2.1 world_no_pr
     "Missing PR number or repository info." rfl,
   (C8_failure_propagation.2.2.2.2.2.2.2 world_write_fail [] [] []
     "disk full" rfl rfl rfl).1,
   (C8_failure_propagation.2.2.2.2.2.2.2 world_write_fail [] [] []
     "disk full" rfl rfl rfl).2⟩

/-- Claim C9: when the per-file loop collects zero positioned comments and
the write succeeds, the payload is still written (an `ok` result, not an
error), with the fixed body string `"AI Code Review"`, the fixed
comment-only event tag `"COMMENT"` and an empty comments array. -/
theorem C9_empty_payload_still_written (w : World) (changed : List String)
    (logs : List LogEntry)
    (h1 : w.changed_files = .ok changed)
    (h2 : review_loop w (filter_source_files changed) = (logs, .ok []))
    (h3 : w.write = .ok ()) :
    run_review w =
      (logs ++
        [.info s!"Generated {REVIEW_OUTPUT_FILE} with inline comments."],
       .ok ⟨"AI Code Review", "COMMENT", []⟩) :=
  run_review_write_ok w changed logs [] h1 h2 h3

/-- Witness for C9: the empty changeset still produces the fixed payload
with an empty comments array. -/
theorem C9_empty_payload_still_written_witness :
    run_review world_empty =
      ([.info "Generated review_output.json with inline comments."],
       .ok ⟨"AI Code Review", "COMMENT", []⟩) :=
  C9_empty_payload_still_written world_empty [] [] rfl rfl rfl

/-- Claim C10: a path survives `filter_source_files` exactly when its
`pathlib` suffix is one of the seven allowed extensions; the surviving
list is a sublist of the input (relative order preserved, the rest
silently excluded); and every comment of a successful run's payload names
a changed file with an allowed extension — excluded files contribute no
comments. -/
theorem C10_extension_filter :
    (∀ (files : List String) (f : String),
      f ∈ filter_source_files files ↔
        f ∈ files ∧ ALLOWED_EXTENSIONS.contains (path_suffix f) = true) ∧
    (∀ files : List String, (filter_source_files files).Sublist files) ∧
    (∀ (w : World) (changed : List String) (logs : List LogEntry)
      (payload : ReviewPayload),
      w.changed_files = .ok changed →
      run_review w = (logs, .ok payload) →
      ∀ c ∈ payload.comments, c.path ∈ changed ∧
        ALLOWED_EXTENSIONS.contains (path_suffix c.path) = true) := by
  refine ⟨?_, ?_, ?_⟩
  · intro files f
    simp [filter_source_files, List.mem_filter]
  · intro files
    exact List.filter_sublist files
  · intro w changed logs payload h1 h2 c hc
    rcases hloop : review_loop w (filter_source_files changed) with ⟨logs', r⟩
    cases r with
    | error e =>
      rw [run_review_loop_err w changed logs' e h1 hloop] at h2
      simp at h2
    | ok cs =>
      cases hw : w.write with
      | error e =>
        rw [run_review_write_err w changed logs' cs e h1 hloop hw] at h2
        simp at h2
      | ok u =>
        cases u
        rw [run_review_write_ok w changed logs' cs h1 hloop hw] at h2
        have hpay : payload = ⟨"AI Code Review", "COMMENT", cs⟩ := by
          have := congrArg Prod.snd h2
          simpa using this.symm
        rw [hpay] at hc
        have hmem : c.path ∈ filter_source_files changed :=
          review_loop_paths w (filter_source_files changed) cs
            (by rw [hloop]) c hc
        have h' := hmem
        simp only [filter_source_files, List.mem_filter] at h'
        exact h'

/-- Witness for C10: `b.txt` is excluded exactly because `.txt` is not an
allowed extension, the filtered list is a sublist, and the one payload
comment of `world_mixed` names the changed file `a.py` with suffix
`.py`. -/
theorem C10_extension_filter_witness :
    ("b.txt" ∈ filter_source_files ["a.py", "b.txt"] ↔
      ("b.txt" ∈ ["a.py", "b.txt"] ∧
        ALLOWED_EXTENSIONS.contains (path_suffix "b.txt") = true)) ∧
    (filter_source_files ["a.py", "b.txt"]).Sublist ["a.py", "b.txt"] ∧
    ((PositionedComment.mk "a.py" 2 (.str "x")).path ∈ ["a.py", "b.txt"] ∧
      ALLOWED_EXTENSIONS.contains
        (path_suffix (PositionedComment.mk "a.py" 2 (.str "x")).path) = true) :=
  ⟨C10_extension_filter.1 ["a.py", "b.txt"] "b.txt",
   C10_extension_filter.2.1 ["a.py", "b.txt"],
   C10_extension_filter.2.2 world_mixed ["a.py", "b.txt"]
     [.info "--- Reviewing a.py ---",
      .info "Generated review_output.json with inline comments."]
     ⟨"AI Code Review", "COMMENT", [⟨"a.py", 2, .str "x"⟩]⟩ rfl rfl
     ⟨"a.py", 2, .str "x"⟩ (List.mem_singleton.mpr rfl)⟩

end AiCodeReview
